import Mathlib

/-!
Shallow embedding of the mimium type-representation core
(`src/basic/type.hpp`) and verification of its specification.

Modelling conventions:
* The C++ `std::variant`-based `types::Value` union becomes a Lean
  inductive.  `std::vector<Value>` payloads become the mutually defined
  `ValueList`, and `std::vector<Struct::Keytype>` becomes `KeytypeList`
  (so that all recursion stays structural and all definitions evaluate).
* `Rec_Wrap<T>` is an owning heap box constructed by copying its
  argument; in a value world boxing is the identity, so `Rec_Wrap`
  payloads are stored inline.  What matters semantically — that
  `Rec_Wrap<TypeVar>{*res}` copies the pointed-to `TypeVar` — is kept:
  the stored store entry is a by-value snapshot of the node.
* `std::shared_ptr<types::TypeVar>` identity is modelled by a heap:
  a list of `TVNode` records addressed by position (`Nat` node ids).
  `prev`/`next` optional shared pointers become `Option Nat` node ids.
* Machine integers (`int`, `int64_t`) are modelled as `Int`; none of the
  verified claims concerns integer overflow.
* C++ control effects are explicit: a function that may throw returns
  `CxxResult`; an unchecked container access out of range (undefined
  behavior, e.g. `std::deque::operator[]`) yields `CxxResult.ub`.
-/

namespace mimium

namespace types

/-- `enum class Kind` from type.hpp line 23. -/
inductive Kind : Type where
  | VOID : Kind
  | PRIMITIVE : Kind
  | POINTER : Kind
  | AGGREGATE : Kind
  | INTERMEDIATE : Kind
deriving DecidableEq, Repr

mutual

/-- The closed variant set `types::Value` (type.hpp lines 68-70), with the
payload of each alternative inlined:
`None`, `Void`, `Float`, `String` are payload-free ground shapes;
`Ref`/`Pointer` own one nested value; `TypeVar` carries its `index`,
`contained` value and optional `prev`/`next` links (node ids into the
shared-node heap); `Function`, `Closure`, `Array`, `Tuple`, `Struct`,
`Alias` are the aggregates.  `Closure.fn` stores the value inside the
closure's `Ref fun` field. -/
inductive Value : Type where
  | None : Value
  | Void : Value
  | Float : Value
  | String : Value
  | Ref (val : Value) : Value
  | TypeVar (index : Int) (contained : Value)
      (prev : Option Nat) (next : Option Nat) : Value
  | Pointer (val : Value) : Value
  | Function (ret_type : Value) (arg_types : ValueList) : Value
  | Closure (fn : Value) (captures : Value) : Value
  | Array (elem_type : Value) (size : Int) : Value
  | Struct (arg_types : KeytypeList) : Value
  | Tuple (arg_types : ValueList) : Value
  | Alias (name : String) (target : Value) : Value
deriving DecidableEq, Repr

/-- `std::vector<types::Value>` (argument/element sequences). -/
inductive ValueList : Type where
  | nil : ValueList
  | cons (hd : Value) (tl : ValueList) : ValueList
deriving DecidableEq, Repr

/-- `std::vector<Struct::Keytype>`: ordered (field name, value) pairs. -/
inductive KeytypeList : Type where
  | nil : KeytypeList
  | cons (field : String) (val : Value) (tl : KeytypeList) : KeytypeList
deriving DecidableEq, Repr

end

/-- View of a `ValueList` as a standard list (statement vocabulary only). -/
def ValueList.toList : ValueList → List Value
  | .nil => []
  | .cons h t => h :: ValueList.toList t

/-- Length of a `ValueList`. -/
def ValueList.length : ValueList → Nat
  | .nil => 0
  | .cons _ t => 1 + ValueList.length t

/-- View of a `KeytypeList` as a standard list of pairs. -/
def KeytypeList.toPairs : KeytypeList → List (String × Value)
  | .nil => []
  | .cons f v t => (f, v) :: KeytypeList.toPairs t

/-- Length of a `KeytypeList`. -/
def KeytypeList.length : KeytypeList → Nat
  | .nil => 0
  | .cons _ _ t => 1 + KeytypeList.length t

/-- `kindOf` (declared type.hpp line 283) dispatched through `KindVisitor`
(lines 271-280): each variant reports its statically declared `kind`
member — `PrimitiveType::kind = PRIMITIVE` for None/Void/Float/String
(lines 31-40), `TypeVar::kind = INTERMEDIATE` (line 99),
`PointerBase::kind = POINTER` for Ref/Pointer (lines 109-123),
`Aggregate::kind = AGGREGATE` for the six aggregates (lines 125-203). -/
def kindOf : Value → Kind
  | .None => .PRIMITIVE
  | .Void => .PRIMITIVE
  | .Float => .PRIMITIVE
  | .String => .PRIMITIVE
  | .Ref _ => .POINTER
  | .TypeVar _ _ _ _ => .INTERMEDIATE
  | .Pointer _ => .POINTER
  | .Function _ _ => .AGGREGATE
  | .Closure _ _ => .AGGREGATE
  | .Array _ _ => .AGGREGATE
  | .Struct _ => .AGGREGATE
  | .Tuple _ => .AGGREGATE
  | .Alias _ _ => .AGGREGATE

/-- Modelled from the spec: the body of `types::isPrimitive` lives in the
repository's type.cpp, which is not under src/; spec section 4.2 makes it
the predicate derived from the `Primitive` kind of the classifier. -/
def isPrimitive (v : Value) : Bool := decide (kindOf v = Kind.PRIMITIVE)

/-- Modelled from the spec: the body of `types::isTypeVar` lives in the
repository's type.cpp, which is not under src/; spec section 4.2 makes it
the predicate derived from the `Intermediate` kind of the classifier. -/
def isTypeVar (v : Value) : Bool := decide (kindOf v = Kind.INTERMEDIATE)

/-- `str.substr(0, str.size() - 1)`: every character of `str` but the
last (in the stringifier the dropped character is always one-byte, so
byte counting and character counting agree). -/
def substrDropLast (s : String) : String := String.mk s.data.dropLast

mutual

/-- `ToStringVisitor` (type.hpp lines 207-262): the per-variant rendering.
The braces of the struct/closure renderings are written with `\x7b` and
`\x7d` escapes. -/
def visitStr (verbose : Bool) : Value → String
  | .None => "none"
  | .TypeVar i _ _ _ => "TypeVar" ++ toString i
  | .Void => "void"
  | .Float => "float"
  | .String => "string"
  | .Ref r => visitStr verbose r ++ "&"
  | .Pointer r => visitStr verbose r ++ "*"
  | .Function ret args =>
      "(" ++ joinStr verbose args "," ++ ") -> " ++ visitStr verbose ret
  | .Closure f c =>
      "cls\x7b " ++ (visitStr verbose f ++ "&") ++ " , " ++
        visitStr verbose c ++ " \x7d"
  | .Array e n => "[" ++ visitStr verbose e ++ "x" ++ toString n ++ "]"
  | .Struct fs =>
      substrDropLast ("\x7b" ++ structFieldsAcc verbose fs) ++ "\x7d"
  | .Tuple ts => "(" ++ joinStr verbose ts "," ++ ")"
  | .Alias name target =>
      name ++ (if verbose then ": " ++ visitStr verbose target else "")

/-- `ToStringVisitor::join` (lines 209-220): empty vector renders to the
empty string; otherwise a left fold from the second element starting with
the rendering of the first (`std::accumulate`). -/
def joinStr (verbose : Bool) : ValueList → String → String
  | .nil, _ => ""
  | .cons v tl, delim => joinFold verbose tl delim (visitStr verbose v)

/-- The `std::accumulate` fold inside `join`. -/
def joinFold (verbose : Bool) : ValueList → String → String → String
  | .nil, _, acc => acc
  | .cons v tl, delim, acc =>
      joinFold verbose tl delim (acc ++ delim ++ visitStr verbose v)

/-- The field loop of `operator()(const Struct&)` (lines 246-252): append
`field:value,` for each field in order. -/
def structFieldsAcc (verbose : Bool) : KeytypeList → String
  | .nil => ""
  | .cons f v tl =>
      f ++ ":" ++ visitStr verbose v ++ "," ++ structFieldsAcc verbose tl

end

/-- `types::toString` (declared line 268): render through the visitor
with the requested verbosity. -/
def toString (v : Value) (verbose : Bool) : String := visitStr verbose v

/-- `Struct::operator Tuple()` (type.hpp lines 182-193): push each
field's `val`, in order, into the tuple's element vector. -/
def structToTupleVals : KeytypeList → ValueList
  | .nil => .nil
  | .cons _ v tl => .cons v (structToTupleVals tl)

/-- The cast `Tuple(Struct)` as a whole value. -/
def structToTuple (fs : KeytypeList) : Value := .Tuple (structToTupleVals fs)

/-- The `f1:t1,f2:t2,...` field rendering the specification's table
gives for a struct: `name:type` pairs joined by commas with no trailing
comma (statement vocabulary for the rendering theorems). -/
def renderFields (verbose : Bool) : KeytypeList → String
  | .nil => ""
  | .cons f v .nil => f ++ ":" ++ visitStr verbose v
  | .cons f v (.cons f2 v2 tl) =>
      f ++ ":" ++ visitStr verbose v ++ "," ++
        renderFields verbose (.cons f2 v2 tl)

mutual

/-- Occurrence test for `TypeVar` anywhere inside a value (used to state
when a value is fully concrete). -/
def hasTypeVar : Value → Bool
  | .None => false
  | .Void => false
  | .Float => false
  | .String => false
  | .TypeVar _ _ _ _ => true
  | .Ref v => hasTypeVar v
  | .Pointer v => hasTypeVar v
  | .Function r args => hasTypeVar r || hasTypeVarL args
  | .Closure f c => hasTypeVar f || hasTypeVar c
  | .Array e _ => hasTypeVar e
  | .Struct fs => hasTypeVarK fs
  | .Tuple ts => hasTypeVarL ts
  | .Alias _ t => hasTypeVar t

def hasTypeVarL : ValueList → Bool
  | .nil => false
  | .cons v tl => hasTypeVar v || hasTypeVarL tl

def hasTypeVarK : KeytypeList → Bool
  | .nil => false
  | .cons _ v tl => hasTypeVar v || hasTypeVarK tl

end

mutual

/-- Substitution of `TypeVar` occurrences: every `TypeVar` whose index
the substitution resolves is replaced by the resolved value; unresolved
variables are left as-is; all other shapes are rebuilt around the
recursively substituted payloads. -/
def replaceOcc (σ : Int → Option Value) : Value → Value
  | .None => .None
  | .Void => .Void
  | .Float => .Float
  | .String => .String
  | .TypeVar i c p n =>
      match σ i with
      | some w => w
      | none => .TypeVar i c p n
  | .Ref v => .Ref (replaceOcc σ v)
  | .Pointer v => .Pointer (replaceOcc σ v)
  | .Function r args => .Function (replaceOcc σ r) (replaceOccL σ args)
  | .Closure f c => .Closure (replaceOcc σ f) (replaceOcc σ c)
  | .Array e n => .Array (replaceOcc σ e) n
  | .Struct fs => .Struct (replaceOccK σ fs)
  | .Tuple ts => .Tuple (replaceOccL σ ts)
  | .Alias nm t => .Alias nm (replaceOcc σ t)

def replaceOccL (σ : Int → Option Value) : ValueList → ValueList
  | .nil => .nil
  | .cons v tl => .cons (replaceOcc σ v) (replaceOccL σ tl)

def replaceOccK (σ : Int → Option Value) : KeytypeList → KeytypeList
  | .nil => .nil
  | .cons f v tl => .cons f (replaceOcc σ v) (replaceOccK σ tl)

end

end types

/-- One shared `types::TypeVar` object (type.hpp lines 74-100) as managed
by `std::make_shared` in `createNewTypeVar`: its `index`, `contained`
value and the two optional chain links, each an id of another shared
node.  Node identity (the `shared_ptr` pointer value) is the node's
position in the heap list below. -/
structure TVNode : Type where
  index : Int
  contained : types.Value
  prev : Option Nat
  next : Option Nat
deriving DecidableEq, Repr

/-- Outcome of a C++ call: a normal return, a thrown exception carrying
the `what()` message, or undefined behavior (an unchecked container
access out of range). -/
inductive CxxResult (α : Type) : Type where
  | ok (val : α) : CxxResult α
  | thrown (msg : String) : CxxResult α
  | ub : CxxResult α
deriving DecidableEq, Repr

/-- Whether a call outcome is a thrown exception. -/
def CxxResult.isThrown {α : Type} : CxxResult α → Bool
  | .thrown _ => true
  | _ => false

/-- The link of a heap node in the `next` direction (none when the node
id is dangling, which never happens for ids handed out by the heap). -/
def nextOf (h : List TVNode) (nid : Nat) : Option Nat :=
  match h.get? nid with
  | some node => node.next
  | none => none

/-- The link of a heap node in the `prev` direction. -/
def prevOf (h : List TVNode) (nid : Nat) : Option Nat :=
  match h.get? nid with
  | some node => node.prev
  | none => none

/-- The loop of `TypeVar::getLink` (type.hpp lines 80-93): follow the
chosen link while it is present.  The C++ loop is unbounded; on an
acyclic chain it visits pairwise distinct live nodes, so the number of
live shared nodes bounds its steps.  `walkLinks` takes that bound as
fuel; the chain theorems show the fuel is never the binding constraint
on an acyclic chain. -/
def walkLinks (step : Nat → Option Nat) : Nat → Nat → Nat
  | 0, cur => cur
  | fuel + 1, cur =>
      match step cur with
      | some nxt => walkLinks step fuel nxt
      | none => cur

/-- `TypeVar::getLink<IS_PREV>` on the heap of shared nodes. -/
def getLink (h : List TVNode) (isPrev : Bool) (nid : Nat) : Nat :=
  walkLinks (if isPrev then prevOf h else nextOf h) h.length nid

/-- `TypeVar::getFirstLink` (line 94): walk `prev` to the front. -/
def getFirstLink (h : List TVNode) (nid : Nat) : Nat := getLink h true nid

/-- `TypeVar::getLastLink` (line 95): walk `next` to the back. -/
def getLastLink (h : List TVNode) (nid : Nat) : Nat := getLink h false nid

/-- `TypeEnv` (type.hpp lines 287-331).  `env` models the
`unordered_map` of name bindings as an association list with unique
keys; `tv_container` is the `std::deque<types::Value>` variable store;
`heap` models the arena of live `shared_ptr<types::TypeVar>` objects
(not a C++ member, but the pointer graph those members reference). -/
structure TypeEnv : Type where
  typeid_count : Int := 0
  env : List (String × types.Value) := []
  tv_container : List types.Value := []
  heap : List TVNode := []
deriving DecidableEq, Repr

/-- `TypeEnv::createNewTypeVar` (lines 296-301): make a fresh shared
`TypeVar(typeid_count++)` node (contained defaults to `None`, no links),
box a copy of it (`Rec_Wrap<types::TypeVar>{*res}`) into the back of
`tv_container`, and return the shared node (its heap id). -/
def TypeEnv.createNewTypeVar (e : TypeEnv) : TypeEnv × Nat :=
  let node : TVNode :=
    { index := e.typeid_count, contained := types.Value.None,
      prev := none, next := none }
  let boxed : types.Value :=
    types.Value.TypeVar node.index node.contained node.prev node.next
  ({ e with
      typeid_count := e.typeid_count + 1,
      heap := e.heap ++ [node],
      tv_container := e.tv_container ++ [boxed] },
    e.heap.length)

/-- The chain-client mutation `res->contained = v` on a shared node
(part of the external interface of the core, spec section 6). -/
def TypeEnv.setContained (e : TypeEnv) (nid : Nat) (v : types.Value) :
    TypeEnv :=
  match e.heap.get? nid with
  | some node => { e with heap := e.heap.set nid { node with contained := v } }
  | none => e

/-- `TypeEnv::findTypeVar` (lines 302-304): `return tv_container[tindex]`.
`std::deque::operator[]` performs no bounds check: the access is defined
exactly when `0 ≤ tindex < size()`, and is undefined behavior otherwise
(`CxxResult.ub`). -/
def TypeEnv.findTypeVar (e : TypeEnv) (tindex : Int) :
    CxxResult types.Value :=
  if 0 ≤ tindex then
    match e.tv_container.get? tindex.toNat with
    | some v => .ok v
    | none => .ub
  else .ub

/-- `TypeEnv::exist` (line 305): `env.count(key) > 0`. -/
def TypeEnv.exist (e : TypeEnv) (key : String) : Bool :=
  (e.env.lookup key).isSome

/-- `TypeEnv::tryFind` (lines 308-313): the entry's address or
`nullptr`, modelled as an optional value. -/
def TypeEnv.tryFind (e : TypeEnv) (key : String) : Option types.Value :=
  e.env.lookup key

/-- `TypeEnv::find` (lines 314-321): dereference `tryFind`, or throw
`std::logic_error` whose message embeds the missing key. -/
def TypeEnv.find (e : TypeEnv) (key : String) : CxxResult types.Value :=
  match e.tryFind key with
  | some v => .ok v
  | none =>
      .thrown ("Could not find type for variable \"" ++ key ++ "\"")

/-- `std::unordered_map::insert_or_assign` on the association list:
overwrite the unique existing entry for the key, or append a new one. -/
def assignList (l : List (String × types.Value)) (key : String)
    (v : types.Value) : List (String × types.Value) :=
  match l with
  | [] => [(key, v)]
  | (k0, v0) :: rest =>
      if k0 = key then (key, v) :: rest
      else (k0, v0) :: assignList rest key v

/-- `TypeEnv::emplace` (lines 323-325): `env.insert_or_assign(key, v)`. -/
def TypeEnv.emplace (e : TypeEnv) (key : String) (typevar : types.Value) :
    TypeEnv :=
  { e with env := assignList e.env key typevar }

/-- The heap id of the shared node carrying a given variable index. -/
def nodeIdOfIndex (h : List TVNode) (i : Int) : Option Nat :=
  h.findIdx? (fun node => node.index == i)

/-- Modelled from the spec: the body of `TypeEnv::replaceTypeVars` lives
in the repository's type.cpp, which is not under src/.  Spec section 4.5
describes the per-variable resolution: the chain-resolved terminal value
of variable `i` is the `contained` guess of the last link of its chain;
the variable is resolvable when that guess is present (not `None`) and
fully concrete (chain resolution is complete knowledge), and genuinely
unresolved variables are left as-is. -/
def TypeEnv.resolveTV (e : TypeEnv) (i : Int) : Option types.Value :=
  match nodeIdOfIndex e.heap i with
  | some nid =>
      match e.heap.get? (getLastLink e.heap nid) with
      | some node =>
          if node.contained ≠ types.Value.None ∧
              types.hasTypeVar node.contained = false
          then some node.contained
          else none
      | none => none
  | none => none

/-- Modelled from the spec: the body of `TypeEnv::replaceTypeVars`
(declared type.hpp line 326) lives in the repository's type.cpp, which
is not under src/.  Spec section 4.5: the environment-wide pass walks
all bindings and all stored variables, replacing every `TypeVar`
occurrence with its chain-resolved terminal value where resolvable and
leaving genuinely unresolved variables as-is; it only rewrites values,
never the allocation counter or the shared-node arena. -/
def TypeEnv.replaceTypeVars (e : TypeEnv) : TypeEnv :=
  { e with
      env := e.env.map (fun p => (p.1, types.replaceOcc e.resolveTV p.2)),
      tv_container := e.tv_container.map (types.replaceOcc e.resolveTV) }

/-- `chainSteps step ids` holds when following `step` from each node of
`ids` reaches exactly the next node of `ids`, and the last node of `ids`
has no further link in the `step` direction. -/
def chainSteps (step : Nat → Option Nat) : List Nat → Bool
  | [] => true
  | [a] => step a == none
  | a :: b :: rest => step a == some b && chainSteps step (b :: rest)

/-- `ids` lists, front to back, the members of an acyclic doubly linked
chain of live shared `TypeVar` nodes of the heap `h`: consecutive nodes
are linked by `next` forward and by `prev` backward, the front has no
`prev`, the back has no `next`, and the members are pairwise distinct
live nodes. -/
def isChain (h : List TVNode) (ids : List Nat) : Prop :=
  ids ≠ [] ∧ ids.Nodup ∧ (∀ n ∈ ids, n < h.length) ∧
    chainSteps (nextOf h) ids = true ∧
    chainSteps (prevOf h) ids.reverse = true

end mimium

namespace mimium

theorem structToTupleVals_length :
    ∀ fs : types.KeytypeList,
      (types.structToTupleVals fs).length = fs.length
  | .nil => rfl
  | .cons _ v tl => by
      simp [types.structToTupleVals, types.ValueList.length,
        types.KeytypeList.length, structToTupleVals_length tl]

theorem structToTupleVals_toList :
    ∀ fs : types.KeytypeList,
      (types.structToTupleVals fs).toList = fs.toPairs.map Prod.snd
  | .nil => rfl
  | .cons _ v tl => by
      simp [types.structToTupleVals, types.ValueList.toList,
        types.KeytypeList.toPairs, structToTupleVals_toList tl]

/-- C10: converting a Struct to a Tuple yields a Tuple of the same arity
whose elements are the field types in the same order with names dropped;
in particular the Struct with fields [(a,Float),(b,String)] converts to
the Tuple (Float, String). -/
theorem struct_to_tuple_arity :
    (∀ fs : types.KeytypeList,
        types.structToTuple fs = .Tuple (types.structToTupleVals fs))
    ∧ (∀ fs : types.KeytypeList,
        (types.structToTupleVals fs).length = fs.length)
    ∧ (∀ fs : types.KeytypeList,
        (types.structToTupleVals fs).toList = fs.toPairs.map Prod.snd)
    ∧ types.structToTuple
          (.cons "a" .Float (.cons "b" .String .nil))
        = .Tuple (.cons .Float (.cons .String .nil)) :=
  ⟨fun _ => rfl, structToTupleVals_length, structToTupleVals_toList, rfl⟩

/-- C6: kindOf is total over the closed variant set with the statically
fixed mapping (None/Void/Float/String are Primitive — Void classifies by
its declaration, which inherits the Primitive kind —, TypeVar is
Intermediate, Ref/Pointer are Pointer, the six composites are
Aggregate), and isPrimitive/isTypeVar agree with the classification. -/
theorem kindOf_classification :
    types.kindOf .None = .PRIMITIVE
    ∧ types.kindOf .Void = .PRIMITIVE
    ∧ types.kindOf .Float = .PRIMITIVE
    ∧ types.kindOf .String = .PRIMITIVE
    ∧ (∀ i c p n, types.kindOf (.TypeVar i c p n) = .INTERMEDIATE)
    ∧ (∀ v, types.kindOf (.Ref v) = .POINTER)
    ∧ (∀ v, types.kindOf (.Pointer v) = .POINTER)
    ∧ (∀ r a, types.kindOf (.Function r a) = .AGGREGATE)
    ∧ (∀ f c, types.kindOf (.Closure f c) = .AGGREGATE)
    ∧ (∀ e n, types.kindOf (.Array e n) = .AGGREGATE)
    ∧ (∀ fs, types.kindOf (.Struct fs) = .AGGREGATE)
    ∧ (∀ ts, types.kindOf (.Tuple ts) = .AGGREGATE)
    ∧ (∀ nm t, types.kindOf (.Alias nm t) = .AGGREGATE)
    ∧ (∀ v, types.isPrimitive v = true ↔ types.kindOf v = .PRIMITIVE)
    ∧ (∀ v, types.isTypeVar v = true ↔ types.kindOf v = .INTERMEDIATE) := by
  refine ⟨rfl, rfl, rfl, rfl, fun i c p n => rfl, fun v => rfl,
    fun v => rfl, fun r a => rfl, fun f c => rfl, fun e n => rfl,
    fun fs => rfl, fun ts => rfl, fun nm t => rfl,
    fun v => ?_, fun v => ?_⟩
  · simp [types.isPrimitive]
  · simp [types.isTypeVar]

/-- C9: the join of an empty sequence is the empty string, and every
Function renders as the comma-joined argument list in parentheses,
an arrow, and the return type; in particular
Function(Float, [Float, String]) renders as "(float,string) -> float"
and a zero-argument Function renders as "() -> " and its return type. -/
theorem function_join_rendering :
    (∀ vb d, types.joinStr vb .nil d = "")
    ∧ (∀ vb ret args,
        types.toString (.Function ret args) vb
          = "(" ++ types.joinStr vb args "," ++ ") -> "
              ++ types.visitStr vb ret)
    ∧ types.toString
          (.Function .Float (.cons .Float (.cons .String .nil))) false
        = "(float,string) -> float"
    ∧ (∀ vb ret, types.toString (.Function ret .nil) vb
        = "() -> " ++ types.visitStr vb ret) :=
  ⟨fun _ _ => rfl, fun _ _ _ => rfl, by decide, fun _ _ => rfl⟩

/-- C1 (evaluation of the code at the failing input): in a fresh
environment, allocate a variable, assign Float to the returned shared
node's contained field; the lookup through findTypeVar(0) still sees the
creation-time snapshot with contained = None, while the shared node in
the heap holds Float — the store entry is a copy, not the shared node. -/
theorem typevar_store_entry_is_copy :
    ((({} : TypeEnv).createNewTypeVar.1.setContained
        ({} : TypeEnv).createNewTypeVar.2 types.Value.Float).findTypeVar 0
      = .ok (types.Value.TypeVar 0 types.Value.None none none))
    ∧ ((({} : TypeEnv).createNewTypeVar.1.setContained
        ({} : TypeEnv).createNewTypeVar.2 types.Value.Float).heap.map
          TVNode.contained = [types.Value.Float]) := by decide

/-- C2 counterexample: on a fresh environment (no index allocated),
findTypeVar(0) does not fail with an error — no exception is thrown; the
unchecked access is undefined behavior. -/
theorem findTypeVar_out_of_range_not_thrown_cx :
    (({} : TypeEnv).findTypeVar 0 = CxxResult.ub)
    ∧ ((({} : TypeEnv).findTypeVar 0).isThrown = false) := by decide

/-- C2 (amended): for every environment and every index outside the
allocated range (negative, or at least the store size), findTypeVar
performs an unchecked access: it raises no error, and its behavior is
undefined (the access is out of the deque's range). -/
theorem findTypeVar_unchecked_access (e : TypeEnv) (i : Int)
    (h : i < 0 ∨ (e.tv_container.length : Int) ≤ i) :
    e.findTypeVar i = .ub
    ∧ (e.findTypeVar i).isThrown = false := by
  have hu : e.findTypeVar i = .ub := by
    unfold TypeEnv.findTypeVar
    rcases h with h | h
    · rw [if_neg (by omega)]
    · rw [if_pos (by omega)]
      have hlen : e.tv_container.length ≤ i.toNat := by omega
      rw [List.get?_len_le hlen]
  exact ⟨hu, by rw [hu]; rfl⟩

/-- C2 witness: the amended theorem applied at the fresh environment and
index -1. -/
theorem findTypeVar_unchecked_access_witness :
    (({} : TypeEnv).findTypeVar (-1) = .ub)
    ∧ ((({} : TypeEnv).findTypeVar (-1)).isThrown = false) :=
  findTypeVar_unchecked_access {} (-1) (Or.inl (by decide))

end mimium

namespace mimium

/-- C3: under the allocation invariant (the counter equals the store
size, as in every reachable environment), the round trip through
findTypeVar of a freshly created variable returns the Intermediate
value with contained = None; the allocation counter grows by one per
call with the invariant preserved, so successive calls hand out strictly
increasing indices, each the store position of its variable. -/
theorem createNewTypeVar_round_trip (e : TypeEnv)
    (hinv : e.typeid_count = (e.tv_container.length : Int)) :
    (e.createNewTypeVar.1.findTypeVar e.typeid_count
        = .ok (types.Value.TypeVar e.typeid_count types.Value.None none none))
    ∧ types.kindOf
          (types.Value.TypeVar e.typeid_count types.Value.None none none)
        = types.Kind.INTERMEDIATE
    ∧ e.createNewTypeVar.1.typeid_count = e.typeid_count + 1
    ∧ e.createNewTypeVar.1.typeid_count
        = (e.createNewTypeVar.1.tv_container.length : Int)
    ∧ e.createNewTypeVar.1.createNewTypeVar.1.findTypeVar
          (e.typeid_count + 1)
        = .ok (types.Value.TypeVar (e.typeid_count + 1)
            types.Value.None none none) := by
  have h0 : (0 : Int) ≤ e.typeid_count := by
    rw [hinv]; exact Int.ofNat_nonneg _
  have ht : e.typeid_count.toNat = e.tv_container.length := by omega
  refine ⟨?_, rfl, rfl, ?_, ?_⟩
  · simp only [TypeEnv.createNewTypeVar, TypeEnv.findTypeVar]
    rw [if_pos h0, ht, List.get?_concat_length]
  · simp only [TypeEnv.createNewTypeVar, List.length_append,
      List.length_singleton]
    omega
  · simp only [TypeEnv.createNewTypeVar, TypeEnv.findTypeVar]
    rw [if_pos (by omega)]
    have ht2 : (e.typeid_count + 1).toNat
        = (e.tv_container.length + 1) := by omega
    rw [ht2]
    have : e.tv_container.length + 1
        = (e.tv_container
            ++ [types.Value.TypeVar e.typeid_count
                  types.Value.None none none]).length := by
      simp
    rw [this, List.get?_concat_length]

/-- C3 witness: the invariant holds in the fresh environment; the round
trip there yields the Intermediate value of index 0, and the successor
allocation carries index 1. -/
theorem createNewTypeVar_round_trip_witness :
    ((({} : TypeEnv).createNewTypeVar.1.findTypeVar 0
        = .ok (types.Value.TypeVar 0 types.Value.None none none))
      ∧ types.kindOf (types.Value.TypeVar 0 types.Value.None none none)
          = types.Kind.INTERMEDIATE
      ∧ ({} : TypeEnv).createNewTypeVar.1.typeid_count = 0 + 1
      ∧ ({} : TypeEnv).createNewTypeVar.1.typeid_count
          = (({} : TypeEnv).createNewTypeVar.1.tv_container.length : Int)
      ∧ ({} : TypeEnv).createNewTypeVar.1.createNewTypeVar.1.findTypeVar
            (0 + 1)
          = .ok (types.Value.TypeVar (0 + 1)
              types.Value.None none none)) :=
  createNewTypeVar_round_trip {} rfl

theorem lookup_assignList_self :
    ∀ (l : List (String × types.Value)) (k : String) (v : types.Value),
      List.lookup k (assignList l k v) = some v
  | [], k, v => by simp [assignList, List.lookup]
  | (k0, v0) :: rest, k, v => by
      by_cases h : k0 = k
      · simp [assignList, h, List.lookup]
      · have hb : (k == k0) = false := beq_eq_false_iff_ne.mpr (Ne.symm h)
        simp [assignList, h, List.lookup, hb,
          lookup_assignList_self rest k v]

theorem lookup_assignList_other :
    ∀ (l : List (String × types.Value)) (k k2 : String)
      (v : types.Value), k2 ≠ k →
      List.lookup k2 (assignList l k v) = List.lookup k2 l
  | [], k, k2, v, hne => by
      have hb : (k2 == k) = false := beq_eq_false_iff_ne.mpr hne
      simp [assignList, List.lookup, hb]
  | (k0, v0) :: rest, k, k2, v, hne => by
      by_cases h : k0 = k
      · have hb : (k2 == k) = false := beq_eq_false_iff_ne.mpr hne
        simp [assignList, h, List.lookup, hb]
      · simp [assignList, h, List.lookup,
          lookup_assignList_other rest k k2 v hne]

/-- C7: find returns the bound value when the name is bound and throws a
LookupError carrying the missing name when absent; tryFind returns
nothing exactly in the absent case (in agreement with exists), and
emplace is insert-or-overwrite, the last writer winning. -/
theorem env_binding_operations (e : TypeEnv) (k k2 : String)
    (v v2 : types.Value) :
    (e.exist k = true ↔ (e.tryFind k).isSome = true)
    ∧ (∀ w, e.tryFind k = some w → e.find k = .ok w)
    ∧ (e.tryFind k = none →
        e.find k
          = .thrown ("Could not find type for variable \"" ++ k ++ "\""))
    ∧ ((e.emplace k v).tryFind k = some v)
    ∧ (k2 ≠ k → (e.emplace k v).tryFind k2 = e.tryFind k2)
    ∧ (((e.emplace k v).emplace k v2).tryFind k = some v2) := by
  refine ⟨Iff.rfl, ?_, ?_, ?_, ?_, ?_⟩
  · intro w h
    simp [TypeEnv.find, h]
  · intro h
    simp [TypeEnv.find, h]
  · exact lookup_assignList_self e.env k v
  · intro hne
    exact lookup_assignList_other e.env k k2 v hne
  · exact lookup_assignList_self (assignList e.env k v) k v2

/-- C7 witness: in the fresh environment, bind x twice and look it up;
the absent name y throws the message carrying y. -/
theorem env_binding_operations_witness :
    ((({} : TypeEnv).emplace "x" types.Value.Float).find "y"
        = .thrown ("Could not find type for variable \"" ++ "y" ++ "\""))
    ∧ ((({} : TypeEnv).emplace "x" types.Value.Float).emplace "x"
          types.Value.Void).tryFind "x" = some types.Value.Void :=
  ⟨(env_binding_operations (({} : TypeEnv).emplace "x" types.Value.Float)
      "y" "x" types.Value.Float types.Value.Void).2.2.1 (by decide),
   (env_binding_operations ({} : TypeEnv) "x" "y" types.Value.Float
      types.Value.Void).2.2.2.2.2⟩

end mimium

namespace mimium

theorem substrDropLast_concat (s : String) :
    types.substrDropLast (s ++ ",") = s := by
  cases s with
  | mk data =>
    show String.mk (((String.mk data) ++ ",").data.dropLast) = String.mk data
    have h1 : ((String.mk data) ++ ",").data = data ++ [','] := rfl
    rw [h1, List.dropLast_concat]

theorem structFieldsAcc_nonempty (vb : Bool) :
    ∀ (f : String) (v : types.Value) (tl : types.KeytypeList),
      types.structFieldsAcc vb (.cons f v tl)
        = types.renderFields vb (.cons f v tl) ++ ","
  | f, v, .nil => by
      simp [types.structFieldsAcc, types.renderFields,
        String.append_empty, String.append_assoc]
  | f, v, .cons f2 v2 tl2 => by
      have ih := structFieldsAcc_nonempty vb f2 v2 tl2
      show f ++ ":" ++ types.visitStr vb v ++ "," ++
          types.structFieldsAcc vb (.cons f2 v2 tl2) = _
      rw [ih]
      simp only [types.renderFields]
      simp [String.append_assoc]

/-- C5 counterexample: the Struct with the empty field sequence renders
as a stray closing brace, not as a brace pair — the comma-trimming
substr removes the opening brace when there is no trailing comma. -/
theorem empty_struct_renders_stray_brace :
    types.toString (.Struct .nil) false = "\x7d"
    ∧ types.toString (.Struct .nil) false ≠ "\x7b\x7d" := by decide

/-- C5 (amended): a Struct with a nonempty field sequence renders as an
opening brace, the name:type pairs joined by commas with no trailing
comma, and a closing brace; the empty Struct renders as the single
character closing brace (the comma trim drops the opening brace). -/
theorem struct_rendering_amended (vb : Bool) :
    (∀ (f : String) (v : types.Value) (tl : types.KeytypeList),
        types.toString (.Struct (.cons f v tl)) vb
          = "\x7b" ++ types.renderFields vb (.cons f v tl) ++ "\x7d")
    ∧ types.toString (.Struct .nil) vb = "\x7d" := by
  constructor
  · intro f v tl
    show types.substrDropLast
        ("\x7b" ++ types.structFieldsAcc vb (.cons f v tl)) ++ "\x7d" = _
    rw [structFieldsAcc_nonempty vb f v tl, ← String.append_assoc,
      substrDropLast_concat, String.append_assoc]
  · cases vb <;> rfl

end mimium

namespace mimium

theorem walkLinks_chain (step : Nat → Option Nat) :
    ∀ (l : List Nat) (a : Nat) (fuel : Nat),
      chainSteps step (a :: l) = true → l.length ≤ fuel →
      (a :: l).getLast? = some (walkLinks step fuel a)
      ∧ step (walkLinks step fuel a) = none
  | [], a, fuel, hc, _ => by
      have hs : step a = none := by simpa [chainSteps] using hc
      cases fuel with
      | zero => exact ⟨rfl, hs⟩
      | succ f =>
          have hw : walkLinks step (f + 1) a = a := by simp [walkLinks, hs]
          rw [hw]
          exact ⟨rfl, hs⟩
  | b :: rest, a, fuel, hc, hf => by
      have h1 : step a = some b ∧ chainSteps step (b :: rest) = true := by
        simpa [chainSteps] using hc
      cases fuel with
      | zero =>
          simp at hf
      | succ f =>
          have hlen : rest.length ≤ f := by
            simp at hf
            omega
          have ih := walkLinks_chain step rest b f h1.2 hlen
          have hw : walkLinks step (f + 1) a = walkLinks step f b := by
            simp [walkLinks, h1.1]
          rw [hw, List.getLast?_cons_cons]
          exact ih

theorem chainSteps_mem_walk (step : Nat → Option Nat) :
    ∀ (ids : List Nat) (a : Nat) (fuel : Nat),
      chainSteps step ids = true → a ∈ ids → ids.length ≤ fuel + 1 →
      ids.getLast? = some (walkLinks step fuel a)
      ∧ step (walkLinks step fuel a) = none
  | [], a, _, _, ha, _ => absurd ha (List.not_mem_nil a)
  | x :: xs, a, fuel, hc, ha, hlen => by
      rcases List.mem_cons.mp ha with rfl | hmem
      · refine walkLinks_chain step xs a fuel hc ?_
        simp at hlen
        omega
      · cases xs with
        | nil => exact absurd hmem (List.not_mem_nil a)
        | cons y ys =>
            have htail : chainSteps step (y :: ys) = true := by
              have h2 : step x = some y
                  ∧ chainSteps step (y :: ys) = true := by
                simpa [chainSteps] using hc
              exact h2.2
            have ih := chainSteps_mem_walk step (y :: ys) a fuel htail hmem
              (by simp only [List.length_cons] at hlen ⊢; omega)
            rw [List.getLast?_cons_cons]
            exact ih

theorem nodup_bounded_length (l : List Nat) (hn : l.Nodup) (m : Nat)
    (hb : ∀ x ∈ l, x < m) : l.length ≤ m := by
  have hsub : l.toFinset ⊆ Finset.range m := by
    intro x hx
    exact Finset.mem_range.mpr (hb x (List.mem_toFinset.mp hx))
  have hcard := Finset.card_le_card hsub
  rwa [List.toFinset_card_of_nodup hn, Finset.card_range] at hcard

/-- C4: on every acyclic doubly linked chain of TypeVar nodes, the walks
of getLastLink and getFirstLink terminate — the fuel bound of the model
is not the binding constraint: each walk reaches a node with no further
link in the walked direction — and the node each returns is the chain's
endpoint in that direction, regardless of which member the walk starts
from. -/
theorem chain_links_terminate (h : List TVNode) (ids : List Nat) (a : Nat)
    (hc : isChain h ids) (ha : a ∈ ids) :
    ids.getLast? = some (getLastLink h a)
    ∧ nextOf h (getLastLink h a) = none
    ∧ ids.head? = some (getFirstLink h a)
    ∧ prevOf h (getFirstLink h a) = none := by
  obtain ⟨hne, hnd, hb, hnext, hprev⟩ := hc
  have hlen : ids.length ≤ h.length := nodup_bounded_length ids hnd h.length hb
  have hL := chainSteps_mem_walk (nextOf h) ids a h.length hnext ha (by omega)
  have hmr : a ∈ ids.reverse := List.mem_reverse.mpr ha
  have hF := chainSteps_mem_walk (prevOf h) ids.reverse a h.length hprev hmr
    (by simp; omega)
  have hgl : getLastLink h a = walkLinks (nextOf h) h.length a := by
    simp [getLastLink, getLink]
  have hgf : getFirstLink h a = walkLinks (prevOf h) h.length a := by
    simp [getFirstLink, getLink]
  rw [hgl, hgf]
  refine ⟨hL.1, hL.2, ?_, hF.2⟩
  rw [← List.getLast?_reverse]
  exact hF.1

/-- C4 witness: a three-node doubly linked chain 0-1-2; starting from
the middle node, getLastLink reaches node 2 (no next link) and
getFirstLink reaches node 0 (no prev link). -/
theorem chain_links_terminate_witness :
    [0, 1, 2].getLast? = some (getLastLink
      [⟨0, types.Value.None, none, some 1⟩,
       ⟨1, types.Value.None, some 0, some 2⟩,
       ⟨2, types.Value.None, some 1, none⟩] 1)
    ∧ nextOf
        [⟨0, types.Value.None, none, some 1⟩,
         ⟨1, types.Value.None, some 0, some 2⟩,
         ⟨2, types.Value.None, some 1, none⟩]
        (getLastLink
          [⟨0, types.Value.None, none, some 1⟩,
           ⟨1, types.Value.None, some 0, some 2⟩,
           ⟨2, types.Value.None, some 1, none⟩] 1) = none
    ∧ [0, 1, 2].head? = some (getFirstLink
        [⟨0, types.Value.None, none, some 1⟩,
         ⟨1, types.Value.None, some 0, some 2⟩,
         ⟨2, types.Value.None, some 1, none⟩] 1)
    ∧ prevOf
        [⟨0, types.Value.None, none, some 1⟩,
         ⟨1, types.Value.None, some 0, some 2⟩,
         ⟨2, types.Value.None, some 1, none⟩]
        (getFirstLink
          [⟨0, types.Value.None, none, some 1⟩,
           ⟨1, types.Value.None, some 0, some 2⟩,
           ⟨2, types.Value.None, some 1, none⟩] 1) = none :=
  chain_links_terminate
    [⟨0, types.Value.None, none, some 1⟩,
     ⟨1, types.Value.None, some 0, some 2⟩,
     ⟨2, types.Value.None, some 1, none⟩]
    [0, 1, 2] 1
    ⟨by decide, by decide, by decide, by decide, by decide⟩
    (by decide)

end mimium

namespace mimium

mutual

theorem replaceOcc_fixed (σ : Int → Option types.Value) :
    ∀ v : types.Value, types.hasTypeVar v = false →
      types.replaceOcc σ v = v
  | .None, _ => rfl
  | .Void, _ => rfl
  | .Float, _ => rfl
  | .String, _ => rfl
  | .TypeVar i c p n, h => by simp [types.hasTypeVar] at h
  | .Ref v, h => by
      simp only [types.hasTypeVar] at h
      simp only [types.replaceOcc, replaceOcc_fixed σ v h]
  | .Pointer v, h => by
      simp only [types.hasTypeVar] at h
      simp only [types.replaceOcc, replaceOcc_fixed σ v h]
  | .Function r args, h => by
      simp only [types.hasTypeVar, Bool.or_eq_false_iff] at h
      simp only [types.replaceOcc, replaceOcc_fixed σ r h.1,
        replaceOcc_fixedL σ args h.2]
  | .Closure f c, h => by
      simp only [types.hasTypeVar, Bool.or_eq_false_iff] at h
      simp only [types.replaceOcc, replaceOcc_fixed σ f h.1,
        replaceOcc_fixed σ c h.2]
  | .Array e n, h => by
      simp only [types.hasTypeVar] at h
      simp only [types.replaceOcc, replaceOcc_fixed σ e h]
  | .Struct fs, h => by
      simp only [types.hasTypeVar] at h
      simp only [types.replaceOcc, replaceOcc_fixedK σ fs h]
  | .Tuple ts, h => by
      simp only [types.hasTypeVar] at h
      simp only [types.replaceOcc, replaceOcc_fixedL σ ts h]
  | .Alias nm t, h => by
      simp only [types.hasTypeVar] at h
      simp only [types.replaceOcc, replaceOcc_fixed σ t h]

theorem replaceOcc_fixedL (σ : Int → Option types.Value) :
    ∀ l : types.ValueList, types.hasTypeVarL l = false →
      types.replaceOccL σ l = l
  | .nil, _ => rfl
  | .cons v tl, h => by
      simp only [types.hasTypeVarL, Bool.or_eq_false_iff] at h
      simp only [types.replaceOccL, replaceOcc_fixed σ v h.1,
        replaceOcc_fixedL σ tl h.2]

theorem replaceOcc_fixedK (σ : Int → Option types.Value) :
    ∀ l : types.KeytypeList, types.hasTypeVarK l = false →
      types.replaceOccK σ l = l
  | .nil, _ => rfl
  | .cons f v tl, h => by
      simp only [types.hasTypeVarK, Bool.or_eq_false_iff] at h
      simp only [types.replaceOccK, replaceOcc_fixed σ v h.1,
        replaceOcc_fixedK σ tl h.2]

end

mutual

theorem replaceOcc_idem (σ : Int → Option types.Value)
    (hσ : ∀ i w, σ i = some w → types.hasTypeVar w = false) :
    ∀ v : types.Value,
      types.replaceOcc σ (types.replaceOcc σ v) = types.replaceOcc σ v
  | .None => rfl
  | .Void => rfl
  | .Float => rfl
  | .String => rfl
  | .TypeVar i c p n => by
      cases hi : σ i with
      | some w =>
          simp only [types.replaceOcc, hi]
          exact replaceOcc_fixed σ w (hσ i w hi)
      | none =>
          simp only [types.replaceOcc, hi]
  | .Ref v => by
      simp only [types.replaceOcc, replaceOcc_idem σ hσ v]
  | .Pointer v => by
      simp only [types.replaceOcc, replaceOcc_idem σ hσ v]
  | .Function r args => by
      simp only [types.replaceOcc, replaceOcc_idem σ hσ r,
        replaceOcc_idemL σ hσ args]
  | .Closure f c => by
      simp only [types.replaceOcc, replaceOcc_idem σ hσ f,
        replaceOcc_idem σ hσ c]
  | .Array e n => by
      simp only [types.replaceOcc, replaceOcc_idem σ hσ e]
  | .Struct fs => by
      simp only [types.replaceOcc, replaceOcc_idemK σ hσ fs]
  | .Tuple ts => by
      simp only [types.replaceOcc, replaceOcc_idemL σ hσ ts]
  | .Alias nm t => by
      simp only [types.replaceOcc, replaceOcc_idem σ hσ t]

theorem replaceOcc_idemL (σ : Int → Option types.Value)
    (hσ : ∀ i w, σ i = some w → types.hasTypeVar w = false) :
    ∀ l : types.ValueList,
      types.replaceOccL σ (types.replaceOccL σ l) = types.replaceOccL σ l
  | .nil => rfl
  | .cons v tl => by
      simp only [types.replaceOccL, replaceOcc_idem σ hσ v,
        replaceOcc_idemL σ hσ tl]

theorem replaceOcc_idemK (σ : Int → Option types.Value)
    (hσ : ∀ i w, σ i = some w → types.hasTypeVar w = false) :
    ∀ l : types.KeytypeList,
      types.replaceOccK σ (types.replaceOccK σ l) = types.replaceOccK σ l
  | .nil => rfl
  | .cons f v tl => by
      simp only [types.replaceOccK, replaceOcc_idem σ hσ v,
        replaceOcc_idemK σ hσ tl]

end

theorem resolveTV_concrete (e : TypeEnv) :
    ∀ i w, e.resolveTV i = some w → types.hasTypeVar w = false := by
  intro i w h
  unfold TypeEnv.resolveTV at h
  split at h
  next nid =>
    split at h
    next node =>
      split at h
      next hc =>
        cases h
        exact hc.2
      next => cases h
    next => cases h
  next => cases h

theorem map_twice {α : Type} (f : α → α) (hf : ∀ x, f (f x) = f x) :
    ∀ l : List α, (l.map f).map f = l.map f
  | [] => rfl
  | x :: xs => by simp [hf x, map_twice f hf xs]

/-- C8: the environment-wide substitution pass replaceTypeVars is
idempotent — running it twice yields a state identical to running it
once — and it never shrinks the variable store: it only rewrites the
values held in the bindings and in the store (the counter and the
shared-node arena are untouched). -/
theorem replaceTypeVars_idempotent (e : TypeEnv) :
    e.replaceTypeVars.replaceTypeVars = e.replaceTypeVars
    ∧ e.replaceTypeVars.tv_container.length = e.tv_container.length := by
  have hres : e.replaceTypeVars.resolveTV = e.resolveTV :=
    funext fun i => rfl
  constructor
  · show ({ e.replaceTypeVars with
        env := e.replaceTypeVars.env.map
          (fun p => (p.1, types.replaceOcc e.replaceTypeVars.resolveTV p.2)),
        tv_container := e.replaceTypeVars.tv_container.map
          (types.replaceOcc e.replaceTypeVars.resolveTV) } : TypeEnv)
      = e.replaceTypeVars
    rw [hres]
    have hσ := resolveTV_concrete e
    have hidem := replaceOcc_idem e.resolveTV hσ
    have henv : e.replaceTypeVars.env.map
        (fun p => (p.1, types.replaceOcc e.resolveTV p.2))
        = e.replaceTypeVars.env := by
      show (e.env.map (fun p => (p.1, types.replaceOcc e.resolveTV p.2))).map
          (fun p => (p.1, types.replaceOcc e.resolveTV p.2)) = _
      exact map_twice _ (fun p => by simp [hidem p.2]) e.env
    have htv : e.replaceTypeVars.tv_container.map
        (types.replaceOcc e.resolveTV) = e.replaceTypeVars.tv_container := by
      show (e.tv_container.map (types.replaceOcc e.resolveTV)).map
          (types.replaceOcc e.resolveTV) = _
      exact map_twice _ hidem e.tv_container
    rw [henv, htv]
  · show (e.tv_container.map (types.replaceOcc e.resolveTV)).length = _
    exact List.length_map _ _

end mimium
